import Mathlib

/-!
Verification of the orbit event-detection notebooks.

The repository consists of Jupyter notebooks built on the Orekit event
machinery.  The parts embedded here are the notebook-level loops that
classify logged detector events into entry and exit lists, the window
pairing and normalization of the latitude/longitude crossing notebook,
the scan-configuration and propagation loop of the field-of-view
notebook, the cartesian-to-RA/Dec conversion, and the local sidereal
time computation.  Combinator and scanner semantics that live in the
external Orekit library are modelled from the specification and marked
as such in their doc comments.
-/

namespace OrbitStuff

/-- Direction of a logged crossing: the predicate becomes true
(Entering) or becomes false (Exiting). -/
inductive Direction where
  | entering : Direction
  | exiting : Direction
deriving DecidableEq, Repr

/-- A logged event as returned by the events logger: the date of the
event (modelled as an integer timestamp) and the increasing flag, which
is true exactly when the detector value transitioned from negative to
positive. -/
structure LoggedEvent where
  date : ℤ
  increasing : Bool
deriving DecidableEq, Repr

/-- The ground-field-of-view notebook loop: an event is appended to the
entry list when the event is NOT increasing, otherwise to the exit
list.  Returns (entry list, exit list) in log order. -/
def gfovSplit : List LoggedEvent → List ℤ × List ℤ
  | [] => ([], [])
  | e :: rest =>
    let p := gfovSplit rest
    if !e.increasing then (e.date :: p.1, p.2) else (p.1, e.date :: p.2)

/-- The elevation-detector notebook loop: an event is appended to the
entry list when the event IS increasing, otherwise to the exit list. -/
def eleSplit : List LoggedEvent → List ℤ × List ℤ
  | [] => ([], [])
  | e :: rest =>
    let p := eleSplit rest
    if e.increasing then (e.date :: p.1, p.2) else (p.1, e.date :: p.2)

/-- The combined-detector notebook loop: identical branching to the
elevation loop, an increasing event is an entry. -/
def combSplit : List LoggedEvent → List ℤ × List ℤ
  | [] => ([], [])
  | e :: rest =>
    let p := combSplit rest
    if e.increasing then (e.date :: p.1, p.2) else (p.1, e.date :: p.2)

/-- An occurrence of the window-extraction stream: a crossing timestamp
together with its direction. -/
structure Occurrence where
  time : ℤ
  dir : Direction
deriving DecidableEq, Repr

/-- The entry-logging loop of the latitude/longitude crossing notebook:
collect the dates of the Entering occurrences in log order. -/
def entryLog : List Occurrence → List ℤ
  | [] => []
  | o :: rest =>
    match o.dir with
    | .entering => o.time :: entryLog rest
    | .exiting => entryLog rest

/-- The exit-logging loop: collect the dates of the Exiting occurrences
in log order. -/
def exitLog : List Occurrence → List ℤ
  | [] => []
  | o :: rest =>
    match o.dir with
    | .entering => exitLog rest
    | .exiting => o.time :: exitLog rest

/-- Truncation of both dataframes to the same number of rows, as in the
notebook: both lists are cut to the minimum of the two lengths. -/
def truncateMin (giris cikis : List ℤ) : List ℤ × List ℤ :=
  let m := min giris.length cikis.length
  (giris.take m, cikis.take m)

/-- The entry-exit order adjustment loop of the notebook: for each row,
if the entry is after the exit, the two timestamps are swapped. -/
def orderAdjust : List (ℤ × ℤ) → List (ℤ × ℤ)
  | [] => []
  | p :: rest =>
    (if p.2 < p.1 then (p.2, p.1) else p) :: orderAdjust rest

/-- A visibility window: entry timestamp and exit timestamp. -/
structure Window where
  entryTime : ℤ
  exitTime : ℤ
deriving DecidableEq, Repr

/-- Duration of a window, as computed by durationFrom in the notebooks:
exit minus entry. -/
def Window.duration (w : Window) : ℤ := w.exitTime - w.entryTime

/-- The complete window extraction of the notebooks: split the
occurrence stream into entry and exit logs, truncate both to the common
length, pair them rowwise, and normalize each pair by the order
adjustment loop. -/
def windowExtract (os : List Occurrence) : List Window :=
  let t := truncateMin (entryLog os) (exitLog os)
  (orderAdjust (t.1.zip t.2)).map (fun p => ⟨p.1, p.2⟩)

/-- Number of Entering occurrences in a stream. -/
def countEntering (os : List Occurrence) : ℕ :=
  os.countP (fun o => o.dir = Direction.entering)

/-- Number of Exiting occurrences in a stream. -/
def countExiting (os : List Occurrence) : ℕ :=
  os.countP (fun o => o.dir = Direction.exiting)

/-- Number of occurrences silently dropped by the truncation step. -/
def droppedCount (os : List Occurrence) : ℕ :=
  countEntering os + countExiting os - 2 * min (countEntering os) (countExiting os)

/-- Normalization of a single entry/exit pair: swap when the entry
timestamp is after the exit timestamp. -/
def normalizePair (p : ℤ × ℤ) : ℤ × ℤ :=
  if p.2 < p.1 then (p.2, p.1) else p

lemma orderAdjust_eq_map (ps : List (ℤ × ℤ)) :
    orderAdjust ps = ps.map normalizePair := by
  induction ps with
  | nil => rfl
  | cons p rest ih => simp [orderAdjust, normalizePair, ih]

lemma normalizePair_le (p : ℤ × ℤ) :
    (normalizePair p).1 ≤ (normalizePair p).2 := by
  unfold normalizePair
  split
  · exact le_of_lt (by assumption)
  · exact le_of_not_lt (by assumption)

lemma orderAdjust_length (ps : List (ℤ × ℤ)) :
    (orderAdjust ps).length = ps.length := by
  rw [orderAdjust_eq_map, List.length_map]

lemma entryLog_length (os : List Occurrence) :
    (entryLog os).length = countEntering os := by
  induction os with
  | nil => rfl
  | cons o rest ih =>
    cases h : o.dir <;>
      simp [entryLog, countEntering, List.countP_cons, h, ih, countEntering] at ih ⊢

lemma exitLog_length (os : List Occurrence) :
    (exitLog os).length = countExiting os := by
  induction os with
  | nil => rfl
  | cons o rest ih =>
    cases h : o.dir <;>
      simp [exitLog, countExiting, List.countP_cons, h, ih, countExiting] at ih ⊢

lemma windowExtract_length (os : List Occurrence) :
    (windowExtract os).length = min (countEntering os) (countExiting os) := by
  unfold windowExtract truncateMin
  rw [List.length_map, orderAdjust_length, List.length_zip]
  simp [entryLog_length, exitLog_length]

lemma mem_windowExtract_le (os : List Occurrence) (w : Window)
    (hw : w ∈ windowExtract os) : w.entryTime ≤ w.exitTime := by
  unfold windowExtract at hw
  rcases List.mem_map.mp hw with ⟨q, hq, rfl⟩
  rw [orderAdjust_eq_map] at hq
  rcases List.mem_map.mp hq with ⟨p, _, rfl⟩
  exact normalizePair_le p

lemma combSplit_eq_eleSplit (es : List LoggedEvent) :
    combSplit es = eleSplit es := by
  induction es with
  | nil => rfl
  | cons e rest ih => cases he : e.increasing <;> simp [combSplit, eleSplit, he, ih]

lemma gfovSplit_swap_eleSplit (es : List LoggedEvent) :
    gfovSplit es = ((eleSplit es).2, (eleSplit es).1) := by
  induction es with
  | nil => rfl
  | cons e rest ih => cases he : e.increasing <;> simp [gfovSplit, eleSplit, he, ih]

end OrbitStuff

namespace OrbitStuff

/-- Claim C1 counterexample: a logged event with increasing flag set
(the detector value transitioned from negative to positive) is placed
by the ground-field-of-view loop in the EXIT list, while the elevation
and combined loops place it in the entry list — so the direction
mapping of the claim does not hold uniformly for every detector. -/
theorem claim_C1_counterexample :
    gfovSplit [⟨0, true⟩] = ([], [0]) ∧
    gfovSplit [⟨0, true⟩] ≠ ([0], []) ∧
    eleSplit [⟨0, true⟩] = ([0], []) ∧
    combSplit [⟨0, true⟩] = ([0], []) := by
  refine ⟨rfl, ?_, rfl, rfl⟩
  decide

/-- Claim C1 amended: the elevation and combined loops classify an
increasing (negative-to-positive) event as Entering and a decreasing
one as Exiting, while the field-of-view loop applies exactly the
opposite mapping: its entry list is the exit list of the
elevation-style classification and vice versa. -/
theorem claim_C1_amended (es : List LoggedEvent) :
    combSplit es = eleSplit es ∧
    gfovSplit es = ((eleSplit es).2, (eleSplit es).1) :=
  ⟨combSplit_eq_eleSplit es, gfovSplit_swap_eleSplit es⟩

/-- Claim C2: every pair whose entry timestamp is greater than its exit
timestamp is swapped by the order-adjustment loop before emission, so
every emitted Window satisfies entryTime ≤ exitTime; in particular the
occurrence stream Exiting at 5 then Entering at 3 yields the window
(3, 5) and never (5, 3). -/
theorem claim_C2_normalization :
    (∀ (os : List Occurrence) (w : Window),
        w ∈ windowExtract os → w.entryTime ≤ w.exitTime) ∧
    (∀ (ps : List (ℤ × ℤ)) (e x : ℤ),
        (e, x) ∈ ps → x < e → (x, e) ∈ orderAdjust ps) ∧
    windowExtract [⟨5, .exiting⟩, ⟨3, .entering⟩] = [⟨3, 5⟩] ∧
    windowExtract [⟨5, .exiting⟩, ⟨3, .entering⟩] ≠ [⟨5, 3⟩] := by
  refine ⟨mem_windowExtract_le, ?_, by decide, by decide⟩
  intro ps e x hmem hlt
  rw [orderAdjust_eq_map]
  refine List.mem_map.mpr ⟨(e, x), hmem, ?_⟩
  simp [normalizePair, hlt]

/-- Claim C2 witness: the normalization applied to the concrete streams
of the claim. -/
theorem claim_C2_witness :
    (⟨3, 5⟩ : Window).entryTime ≤ (⟨3, 5⟩ : Window).exitTime ∧
    ((3 : ℤ), (5 : ℤ)) ∈ orderAdjust [((5 : ℤ), (3 : ℤ))] :=
  ⟨claim_C2_normalization.1 [⟨5, .exiting⟩, ⟨3, .entering⟩] ⟨3, 5⟩ (by decide),
   claim_C2_normalization.2.1 [((5 : ℤ), (3 : ℤ))] 5 3 (by decide) (by decide)⟩

/-- The duration-pairing loop shared in shape by the part_000 event
loops: walk the logged events in order, remember the date of the most
recent entry-classified event, and at each exit-classified event report
the duration from that entry in minutes (durationFrom divided by 60).
An exit before any entry reads an unbound variable in the source, so
the loop fails there (none). The entry test is a parameter because the
field-of-view loop classifies non-increasing events as entries while
the elevation and combined loops classify increasing ones. -/
def detectorDurationLoop (isEntry : LoggedEvent → Bool) :
    Option ℤ → List LoggedEvent → Option (List ℚ)
  | _, [] => some []
  | acc, e :: rest =>
    if isEntry e then detectorDurationLoop isEntry (some e.date) rest
    else
      match acc with
      | none => none
      | some en =>
        (detectorDurationLoop isEntry (some en) rest).map
          (fun ds => (((e.date - en : ℤ) : ℚ) / 60) :: ds)

/-- The gfov_duration loop of part_000: entries are the non-increasing
events, durations are reported at increasing events. -/
def gfovDurations (es : List LoggedEvent) : Option (List ℚ) :=
  detectorDurationLoop (fun e => !e.increasing) none es

/-- The ele_duration loop of part_000: entries are the increasing
events, durations are reported at non-increasing events. -/
def eleDurations (es : List LoggedEvent) : Option (List ℚ) :=
  detectorDurationLoop (fun e => e.increasing) none es

/-- The comb_duration loop of part_000: identical branching to the
elevation loop. -/
def combDurations (es : List LoggedEvent) : Option (List ℚ) :=
  detectorDurationLoop (fun e => e.increasing) none es

lemma detectorDurationLoop_nonneg (isEntry : LoggedEvent → Bool) :
    ∀ (es : List LoggedEvent),
      List.Pairwise (fun a b => a.date ≤ b.date) es →
      ∀ (acc : Option ℤ), (∀ en, acc = some en → ∀ e ∈ es, en ≤ e.date) →
      ∀ ds, detectorDurationLoop isEntry acc es = some ds → ∀ d ∈ ds, 0 ≤ d := by
  intro es
  induction es with
  | nil =>
    intro _ acc _ ds hds d hd
    simp [detectorDurationLoop] at hds
    subst hds
    simp at hd
  | cons e rest ih =>
    intro hp acc hacc ds hds d hd
    rw [List.pairwise_cons] at hp
    obtain ⟨hhead, hrest⟩ := hp
    by_cases he : isEntry e
    · rw [show detectorDurationLoop isEntry acc (e :: rest)
          = detectorDurationLoop isEntry (some e.date) rest from by
        simp [detectorDurationLoop, he]] at hds
      refine ih hrest (some e.date) ?_ ds hds d hd
      intro en hen x hx
      injection hen with hen
      rw [← hen]
      exact hhead x hx
    · rcases acc with _ | en
      · rw [show detectorDurationLoop isEntry none (e :: rest) = none from by
          simp [detectorDurationLoop, he]] at hds
        exact absurd hds (by simp)
      · rw [show detectorDurationLoop isEntry (some en) (e :: rest)
            = (detectorDurationLoop isEntry (some en) rest).map
                (fun ds2 => (((e.date - en : ℤ) : ℚ) / 60) :: ds2) from by
          simp [detectorDurationLoop, he]] at hds
        obtain ⟨ds2, hds2, hcons⟩ := Option.map_eq_some'.mp hds
        rw [← hcons] at hd
        rcases List.mem_cons.mp hd with hd1 | hd2
        · have hen_le : en ≤ e.date := hacc en rfl e (List.mem_cons_self e rest)
          have hz : (0 : ℚ) ≤ ((e.date - en : ℤ) : ℚ) := by
            exact_mod_cast Int.sub_nonneg.mpr hen_le
          rw [hd1]
          exact div_nonneg hz (by norm_num)
        · refine ih hrest (some en) ?_ ds2 hds2 d hd2
          intro en2 hen2 x hx
          injection hen2 with hen2
          rw [← hen2]
          exact hacc en rfl x (List.mem_cons_of_mem e hx)

lemma chain'_date_pairwise (es : List LoggedEvent)
    (h : List.Chain' (fun a b => a.date ≤ b.date) es) :
    List.Pairwise (fun a b => a.date ≤ b.date) es := by
  haveI : IsTrans LoggedEvent (fun a b => a.date ≤ b.date) :=
    ⟨fun _ _ _ hab hbc => le_trans hab hbc⟩
  exact List.chain'_iff_pairwise.mp h

/-- Claim C5: every window emitted after normalization satisfies the
invariant exitTime ≥ entryTime with duration = exitTime − entryTime,
hence non-negative; and every duration reported by the part_000
field-of-view, elevation and combined detector loops over a
chronologically ordered event log is non-negative as well. -/
theorem claim_C5_invariant :
    (∀ (os : List Occurrence) (w : Window), w ∈ windowExtract os →
      w.entryTime ≤ w.exitTime ∧
      w.duration = w.exitTime - w.entryTime ∧
      0 ≤ w.duration) ∧
    (∀ (es : List LoggedEvent),
      List.Chain' (fun a b => a.date ≤ b.date) es →
      (∀ ds, gfovDurations es = some ds → ∀ d ∈ ds, 0 ≤ d) ∧
      (∀ ds, eleDurations es = some ds → ∀ d ∈ ds, 0 ≤ d) ∧
      (∀ ds, combDurations es = some ds → ∀ d ∈ ds, 0 ≤ d)) := by
  constructor
  · intro os w hw
    have h := mem_windowExtract_le os w hw
    exact ⟨h, rfl, by unfold Window.duration; omega⟩
  · intro es hsorted
    have hpw := chain'_date_pairwise es hsorted
    have hnone : ∀ en, (none : Option ℤ) = some en → ∀ e ∈ es, en ≤ e.date := by
      intro en hen
      exact absurd hen (by simp)
    exact ⟨detectorDurationLoop_nonneg _ es hpw none hnone,
           detectorDurationLoop_nonneg _ es hpw none hnone,
           detectorDurationLoop_nonneg _ es hpw none hnone⟩

/-- Claim C5 witness: the invariant on a concrete extracted window, and
the non-negativity of the duration reported by the combined and
field-of-view loops on concrete two-event logs. -/
theorem claim_C5_witness :
    ((⟨0, 7⟩ : Window).entryTime ≤ (⟨0, 7⟩ : Window).exitTime ∧
     (⟨0, 7⟩ : Window).duration =
       (⟨0, 7⟩ : Window).exitTime - (⟨0, 7⟩ : Window).entryTime ∧
     0 ≤ (⟨0, 7⟩ : Window).duration) ∧
    (0 : ℚ) ≤ (4 : ℚ) / 60 ∧
    (0 : ℚ) ≤ (9 : ℚ) / 60 := by
  refine ⟨claim_C5_invariant.1 [⟨0, .entering⟩, ⟨7, .exiting⟩] ⟨0, 7⟩ (by decide),
    ?_, ?_⟩
  · have hc : combDurations [⟨0, true⟩, ⟨4, false⟩] = some [(4 : ℚ) / 60] := by
      simp [combDurations, detectorDurationLoop]
    exact (claim_C5_invariant.2 [⟨0, true⟩, ⟨4, false⟩]
        (by simp [List.chain'_cons])).2.2 [(4 : ℚ) / 60] hc ((4 : ℚ) / 60)
      (by simp)
  · have hg : gfovDurations [⟨0, false⟩, ⟨9, true⟩] = some [(9 : ℚ) / 60] := by
      simp [gfovDurations, detectorDurationLoop]
    exact (claim_C5_invariant.2 [⟨0, false⟩, ⟨9, true⟩]
        (by simp [List.chain'_cons])).1 [(9 : ℚ) / 60] hg ((9 : ℚ) / 60)
      (by simp)

/-- Claim C6 counterexample: two occurrence streams whose dropped
counts differ (one against zero) produce identical extractor output, so
the extractor does not report the number of dropped occurrences to the
caller in any form. -/
theorem claim_C6_counterexample :
    windowExtract [⟨1, .entering⟩, ⟨2, .exiting⟩, ⟨3, .entering⟩] =
      windowExtract [⟨1, .entering⟩, ⟨2, .exiting⟩] ∧
    droppedCount [⟨1, .entering⟩, ⟨2, .exiting⟩, ⟨3, .entering⟩] = 1 ∧
    droppedCount [⟨1, .entering⟩, ⟨2, .exiting⟩] = 0 ∧
    windowExtract [⟨1, .entering⟩, ⟨2, .exiting⟩, ⟨3, .entering⟩] = [⟨1, 2⟩] := by
  refine ⟨by decide, by decide, by decide, by decide⟩

/-- Claim C6 amended: leftover unmatched occurrences are dropped
silently and without error — the extraction is total, always produces
min(countEntering, countExiting) windows, and the dropped occurrences
are exactly those beyond the paired prefix; no dropped count appears in
the output. -/
theorem claim_C6_amended (os : List Occurrence) :
    (windowExtract os).length = min (countEntering os) (countExiting os) ∧
    droppedCount os =
      countEntering os + countExiting os - 2 * (windowExtract os).length := by
  refine ⟨windowExtract_length os, ?_⟩
  rw [windowExtract_length]
  rfl

/-- Claim C3: for a chronologically ordered occurrence stream, the
extraction pairs the i-th Entering occurrence with the i-th Exiting
occurrence in log order, produces exactly
min(countEntering, countExiting) windows, and drops unmatched trailing
occurrences instead of padding them with a synthetic exit. -/
theorem claim_C3_pairing (os : List Occurrence)
    (hsorted : List.Chain' (fun a b => a.time ≤ b.time) os) :
    (windowExtract os).length = min (countEntering os) (countExiting os) ∧
    ∀ i (h : i < (windowExtract os).length) (h1 : i < (entryLog os).length)
      (h2 : i < (exitLog os).length),
      (windowExtract os).get ⟨i, h⟩ =
        ⟨(normalizePair ((entryLog os).get ⟨i, h1⟩, (exitLog os).get ⟨i, h2⟩)).1,
         (normalizePair ((entryLog os).get ⟨i, h1⟩, (exitLog os).get ⟨i, h2⟩)).2⟩ := by
  refine ⟨windowExtract_length os, ?_⟩
  intro i h h1 h2
  simp only [windowExtract, truncateMin, orderAdjust_eq_map] at h ⊢
  simp only [List.get_eq_getElem, List.getElem_map, List.getElem_zip, List.getElem_take,
    orderAdjust_eq_map]

/-- Claim C3 witness: the pairing applied to a concrete sorted stream
with one unmatched trailing entry. -/
theorem claim_C3_witness :
    List.Chain' (fun (a b : Occurrence) => a.time ≤ b.time)
      [⟨1, .entering⟩, ⟨2, .exiting⟩, ⟨3, .entering⟩] ∧
    (windowExtract [⟨1, .entering⟩, ⟨2, .exiting⟩, ⟨3, .entering⟩]).length =
      min (countEntering [⟨1, .entering⟩, ⟨2, .exiting⟩, ⟨3, .entering⟩])
        (countExiting [⟨1, .entering⟩, ⟨2, .exiting⟩, ⟨3, .entering⟩]) := by
  have hs : List.Chain' (fun (a b : Occurrence) => a.time ≤ b.time)
      [⟨1, .entering⟩, ⟨2, .exiting⟩, ⟨3, .entering⟩] := by
    simp [List.chain'_cons]
  exact ⟨hs, (claim_C3_pairing _ hs).1⟩

/-- An event detector as configured in the notebook: only its declared
maximum-check interval matters here. -/
structure Detector where
  maxCheck : ℚ
deriving DecidableEq, Repr

/-- The withMaxCheck configurator: returns a detector with the given
maximum-check interval; it performs no validation of any kind. -/
def withMaxCheck (d : Detector) (m : ℚ) : Detector := { d with maxCheck := m }

/-- The ground-field-of-view detector of the notebook: the library
default maximum-check interval of 600 s overridden to 5 s by
withMaxCheck, exactly as in the notebook cell. -/
def GFoVDetector : Detector := withMaxCheck { maxCheck := 600 } 5

/-- The notebook propagation loop: starting at the initial date, while
the current date does not exceed the final date, sample the state and
shift the date by the step; written with explicit fuel so it is total
(the fuel is provably sufficient for any positive step). -/
def propagationLoop (fuel : ℕ) (t final step : ℤ) : List ℤ :=
  match fuel with
  | 0 => []
  | Nat.succ f => if t ≤ final then t :: propagationLoop f (t + step) final step else []

/-- The sample times the propagation loop visits, with sufficient fuel
for any step of at least one time unit. -/
def scanSamples (t final step : ℤ) : List ℤ :=
  propagationLoop (final + 1 - t).toNat t final step

lemma propagationLoop_fuel {step : ℤ} (hstep : 1 ≤ step) :
    ∀ (f1 f2 : ℕ) (t final : ℤ),
      (final + 1 - t).toNat ≤ f1 → (final + 1 - t).toNat ≤ f2 →
      propagationLoop f1 t final step = propagationLoop f2 t final step := by
  intro f1
  induction f1 with
  | zero =>
    intro f2 t final h1 h2
    have ht : ¬ t ≤ final := by omega
    cases f2 with
    | zero => rfl
    | succ f2 => simp [propagationLoop, ht]
  | succ f1 ih =>
    intro f2 t final h1 h2
    by_cases ht : t ≤ final
    · cases f2 with
      | zero => exact absurd h2 (by omega)
      | succ f2 =>
        simp only [propagationLoop, if_pos ht]
        congr 1
        exact ih f2 (t + step) final (by omega) (by omega)
    · cases f2 with
      | zero => simp [propagationLoop, ht]
      | succ f2 => simp [propagationLoop, ht]

lemma scanSamples_cons {t final step : ℤ} (ht : t ≤ final) (hstep : 1 ≤ step) :
    scanSamples t final step = t :: scanSamples (t + step) final step := by
  unfold scanSamples
  have h : (final + 1 - t).toNat = ((final + 1 - t).toNat - 1) + 1 := by omega
  rw [h]
  simp only [propagationLoop, if_pos ht]
  congr 1
  exact propagationLoop_fuel hstep _ _ _ _ (by omega) (by omega)

/-- Claim C4 counterexample: the notebook configures the detector with
a 5 s maximum-check interval and then drives the propagation with a
10 s step; no InvalidStepBudget failure occurs — the scan runs and
samples states, so the oversized step is silently accepted. -/
theorem claim_C4_counterexample :
    GFoVDetector.maxCheck < 10 ∧
    scanSamples 0 30 10 = [0, 10, 20, 30] ∧
    scanSamples 0 30 10 ≠ [] := by
  refine ⟨by norm_num [GFoVDetector, withMaxCheck], by decide, by decide⟩

/-- Claim C4 amended: no step-budget validation exists anywhere in the
code: for any detector and any positive step, even one strictly larger
than the detector's declared maximum-check interval, the propagation
loop proceeds to sample states starting at the start time rather than
failing before sampling. -/
theorem claim_C4_amended (d : Detector) (t final step : ℤ)
    (hover : d.maxCheck < (step : ℚ)) (ht : t ≤ final) (hstep : 1 ≤ step) :
    scanSamples t final step = t :: scanSamples (t + step) final step ∧
    scanSamples t final step ≠ [] := by
  refine ⟨scanSamples_cons ht hstep, ?_⟩
  rw [scanSamples_cons ht hstep]
  simp

/-- Claim C4 witness: the amended statement at the notebook's own
configuration, maximum-check 5 s against step 10 s. -/
theorem claim_C4_witness :
    scanSamples 0 30 10 = 0 :: scanSamples 10 30 10 ∧
    scanSamples 0 30 10 ≠ [] :=
  claim_C4_amended GFoVDetector 0 30 10
    (by norm_num [GFoVDetector, withMaxCheck]) (by decide) (by decide)

/-- Modelled from the spec: the NOT combinator of BooleanDetector
(notCombine), whose implementation lives in the external Orekit
library, negates the indicator value so that zero-crossings stay at the
same instants with reversed direction. -/
def notCombine (g : ℤ → ℚ) : ℤ → ℚ := fun t => -(g t)

/-- Modelled from the spec: the event-scanner walk, whose
implementation lives in the external Orekit library.  Starting from the
previous sample, it compares the sign of consecutive indicator values
and emits an Occurrence with direction Entering on a
negative-to-nonnegative transition and Exiting on a
nonnegative-to-negative transition; root refinement is abstracted to
the right endpoint of the bracketing step. -/
def scanFrom (g : ℤ → ℚ) : ℤ → List ℤ → List Occurrence
  | _, [] => []
  | prev, t :: rest =>
    if g prev < 0 ∧ 0 ≤ g t then ⟨t, .entering⟩ :: scanFrom g t rest
    else if 0 ≤ g prev ∧ g t < 0 then ⟨t, .exiting⟩ :: scanFrom g t rest
    else scanFrom g t rest

/-- Modelled from the spec: scan an indicator over a list of sample
times, producing the logged occurrence sequence. -/
def scanOcc (g : ℤ → ℚ) : List ℤ → List Occurrence
  | [] => []
  | t :: rest => scanFrom g t rest

/-- Claim C7: the double negation NOT(NOT(f)) produces exactly the same
occurrence sequence as f itself — same timestamps, same directions —
for every indicator and every sample grid. -/
theorem claim_C7_double_negation (g : ℤ → ℚ) (times : List ℤ) :
    scanOcc (notCombine (notCombine g)) times = scanOcc g times := by
  have hg : notCombine (notCombine g) = g := by
    funext t
    simp [notCombine]
  rw [hg]

/-- A scan configuration as in the spec interface: start time, end
time, step budget, and target resolution. -/
structure ScanConfig where
  startTime : ℤ
  endTime : ℤ
  stepBudget : ℤ
  resolutionEpsilon : ℚ
deriving DecidableEq, Repr

/-- Modelled from the spec: a full scan run samples the propagation
times of the configuration and scans the indicator for sign changes;
the scanning engine itself lives in the external Orekit library. -/
def runScan (c : ScanConfig) (g : ℤ → ℚ) : List Occurrence :=
  scanOcc g (scanSamples c.startTime c.endTime c.stepBudget)

/-- Claim C8: the scan is deterministic — two runs configured with the
same start time, end time, step and tolerance over the same indicator
data produce identical occurrence sequences. -/
theorem claim_C8_deterministic (c1 c2 : ScanConfig) (g : ℤ → ℚ)
    (hs : c1.startTime = c2.startTime) (he : c1.endTime = c2.endTime)
    (hst : c1.stepBudget = c2.stepBudget)
    (hr : c1.resolutionEpsilon = c2.resolutionEpsilon) :
    runScan c1 g = runScan c2 g := by
  cases c1
  cases c2
  simp only at hs he hst hr
  subst hs he hst hr
  rfl

/-- Claim C8 witness: two identically configured runs over a concrete
indicator coincide. -/
theorem claim_C8_witness :
    runScan ⟨0, 5, 1, 1⟩ (fun t => (t : ℚ) - 2) =
      runScan ⟨0, 5, 1, 1⟩ (fun t => (t : ℚ) - 2) :=
  claim_C8_deterministic ⟨0, 5, 1, 1⟩ ⟨0, 5, 1, 1⟩ _ rfl rfl rfl rfl

/-- Python int() applied to a float value: truncation toward zero. -/
def pytrunc (q : ℚ) : ℤ := if 0 ≤ q then ⌊q⌋ else ⌈q⌉

/-- Python float modulo x % y: the remainder with the sign of the
divisor, x − y·⌊x / y⌋. -/
def pymod (x y : ℚ) : ℚ := x - y * ⌊x / y⌋

/-- Universal Time in decimal hours, as computed by the sidereal-time
notebook from the hour, minute and second inputs. -/
def UT (hour minute : ℤ) (second : ℚ) : ℚ :=
  hour + minute / 60 + second / 3600

/-- Julian day number at 0h UT of the given calendar date, as computed
by the sidereal-time notebook (the inner divisions are Python float
divisions truncated by int()). -/
def J0 (year month day : ℤ) : ℚ :=
  367 * year
    - (pytrunc (7 * ((year : ℚ) + (pytrunc (((month : ℚ) + 9) / 12) : ℤ)) / 4) : ℤ)
    + (pytrunc ((275 * (month : ℚ)) / 9) : ℤ)
    + day + 1721013.5

/-- Julian centuries since J2000.0 at 0h UT of the given date. -/
def T0 (year month day : ℤ) : ℚ :=
  (J0 year month day - 2451545) / 36525

/-- Greenwich sidereal time at 0h UT in degrees, the cubic polynomial
of the notebook. -/
def teta_g0 (year month day : ℤ) : ℚ :=
  100.4606184 + 36000.77004 * T0 year month day
    + 0.000387933 * (T0 year month day) ^ 2
    - 2.583 * (1 / 10 ^ 8) * (T0 year month day) ^ 3

/-- Greenwich sidereal time at the input UT in degrees. -/
def teta_g (year month day hour minute : ℤ) (second : ℚ) : ℚ :=
  teta_g0 year month day + 360.98564724 * (UT hour minute second / 24)

/-- Local sidereal time in degrees: Greenwich sidereal time plus the
observer longitude, reduced modulo 360. -/
def teta (year month day hour minute : ℤ) (second longitude : ℚ) : ℚ :=
  pymod (teta_g year month day hour minute second + longitude) 360

lemma pymod_360_nonneg_lt (x : ℚ) : 0 ≤ pymod x 360 ∧ pymod x 360 < 360 := by
  have h0 := Int.fract_nonneg (x / 360)
  have h1 := Int.fract_lt_one (x / 360)
  have heq : pymod x 360 = 360 * Int.fract (x / 360) := by
    unfold pymod
    rw [Int.fract]
    ring
  constructor <;> rw [heq] <;> linarith

/-- Claim C10: the local sidereal time computed by the notebook lies in
the half-open interval [0, 360) degrees for every calendar input and
every observer longitude, positive or negative, because the final
reduction is taken modulo 360. -/
theorem claim_C10_lst_range (year month day hour minute : ℤ)
    (second longitude : ℚ) :
    0 ≤ teta year month day hour minute second longitude ∧
    teta year month day hour minute second longitude < 360 := by
  unfold teta
  exact pymod_360_nonneg_lt _

end OrbitStuff

namespace OrbitStuff

open Real

noncomputable def atan2 (y x : ℝ) : ℝ :=
  if 0 < x then arctan (y / x)
  else if x < 0 then
    (if 0 ≤ y then arctan (y / x) + π else arctan (y / x) - π)
  else if 0 < y then π / 2
  else if y < 0 then -(π / 2)
  else 0

lemma sqrt_one_add_div_sq (x y : ℝ) (hx : x ≠ 0) :
    Real.sqrt (1 + (y / x) ^ 2) = Real.sqrt (x ^ 2 + y ^ 2) / |x| := by
  have h1 : 1 + (y / x) ^ 2 = (x ^ 2 + y ^ 2) / x ^ 2 := by
    field_simp
  rw [h1, Real.sqrt_div (by positivity), Real.sqrt_sq_eq_abs]

lemma cos_atan2 (y x : ℝ) (h : x ≠ 0 ∨ y ≠ 0) :
    Real.cos (atan2 y x) = x / Real.sqrt (x ^ 2 + y ^ 2) := by
  have hs : 0 < Real.sqrt (x ^ 2 + y ^ 2) := by
    apply Real.sqrt_pos.mpr
    rcases h with hx | hy
    · positivity
    · positivity
  have hsne : Real.sqrt (x ^ 2 + y ^ 2) ≠ 0 := ne_of_gt hs
  unfold atan2
  rcases lt_trichotomy x 0 with hx | hx | hx
  · rw [if_neg (by linarith), if_pos hx]
    have habs : |x| = -x := abs_of_neg hx
    by_cases hy : 0 ≤ y
    · rw [if_pos hy, Real.cos_add_pi, Real.cos_arctan,
        sqrt_one_add_div_sq x y (ne_of_lt hx), habs]
      rw [one_div_div]
      ring
    · rw [if_neg hy, Real.cos_sub_pi, Real.cos_arctan,
        sqrt_one_add_div_sq x y (ne_of_lt hx), habs]
      rw [one_div_div]
      ring
  · subst hx
    rw [if_neg (lt_irrefl 0), if_neg (lt_irrefl 0)]
    have hy : y ≠ 0 := h.resolve_left (fun hh => hh rfl)
    rcases lt_or_gt_of_ne hy with hy' | hy'
    · rw [if_neg (by linarith), if_pos hy', Real.cos_neg, Real.cos_pi_div_two]
      simp
    · rw [if_pos hy', Real.cos_pi_div_two]
      simp
  · rw [if_pos hx, Real.cos_arctan, sqrt_one_add_div_sq x y (ne_of_gt hx),
      abs_of_pos hx, one_div_div]

lemma sin_atan2 (y x : ℝ) (h : x ≠ 0 ∨ y ≠ 0) :
    Real.sin (atan2 y x) = y / Real.sqrt (x ^ 2 + y ^ 2) := by
  have hs : 0 < Real.sqrt (x ^ 2 + y ^ 2) := by
    apply Real.sqrt_pos.mpr
    rcases h with hx | hy
    · positivity
    · positivity
  have hsne : Real.sqrt (x ^ 2 + y ^ 2) ≠ 0 := ne_of_gt hs
  unfold atan2
  rcases lt_trichotomy x 0 with hx | hx | hx
  · have hxne : x ≠ 0 := ne_of_lt hx
    rw [if_neg (by linarith), if_pos hx]
    have habs : |x| = -x := abs_of_neg hx
    by_cases hy : 0 ≤ y
    · rw [if_pos hy, Real.sin_add_pi, Real.sin_arctan,
        sqrt_one_add_div_sq x y hxne, habs]
      field_simp
      ring
    · rw [if_neg hy, Real.sin_sub_pi, Real.sin_arctan,
        sqrt_one_add_div_sq x y hxne, habs]
      field_simp
      ring
  · subst hx
    rw [if_neg (lt_irrefl 0), if_neg (lt_irrefl 0)]
    have hy : y ≠ 0 := h.resolve_left (fun hh => hh rfl)
    rcases lt_or_gt_of_ne hy with hy' | hy'
    · rw [if_neg (by linarith), if_pos hy', Real.sin_neg, Real.sin_pi_div_two]
      rw [show (0 : ℝ) ^ 2 + y ^ 2 = y ^ 2 by ring, Real.sqrt_sq_eq_abs,
        abs_of_neg hy']
      field_simp
    · rw [if_pos hy', Real.sin_pi_div_two]
      rw [show (0 : ℝ) ^ 2 + y ^ 2 = y ^ 2 by ring, Real.sqrt_sq_eq_abs,
        abs_of_pos hy']
      field_simp
  · have hxne : x ≠ 0 := ne_of_gt hx
    rw [if_pos hx, Real.sin_arctan, sqrt_one_add_div_sq x y hxne, abs_of_pos hx]
    field_simp

end OrbitStuff

namespace OrbitStuff

/-- Conversion from radians to degrees, as math.degrees. -/
noncomputable def degreesOf (r : ℝ) : ℝ := r * (180 / Real.pi)

/-- Conversion from degrees to radians, as math.radians. -/
noncomputable def radiansOf (d : ℝ) : ℝ := d * (Real.pi / 180)

/-- The cartesian-to-RA/Dec conversion of the notebook: right ascension
atan2(y, x) and declination atan2(z, sqrt(x^2 + y^2)), both converted
to degrees, with a negative right ascension shifted by 360 degrees. -/
noncomputable def cartesian_to_radec (x y z : ℝ) : ℝ × ℝ :=
  ((if degreesOf (atan2 y x) < 0 then degreesOf (atan2 y x) + 360
    else degreesOf (atan2 y x)),
   degreesOf (atan2 z (Real.sqrt (x ^ 2 + y ^ 2))))

/-- The round-trip check cell of the notebook: rebuild the cartesian
vector from R and the RA/Dec angles (converted back to radians). -/
noncomputable def radecCheck (x y z : ℝ) : ℝ × ℝ × ℝ :=
  (Real.sqrt (x ^ 2 + y ^ 2 + z ^ 2) *
     (Real.cos (radiansOf (cartesian_to_radec x y z).1) *
      Real.cos (radiansOf (cartesian_to_radec x y z).2)),
   Real.sqrt (x ^ 2 + y ^ 2 + z ^ 2) *
     (Real.sin (radiansOf (cartesian_to_radec x y z).1) *
      Real.cos (radiansOf (cartesian_to_radec x y z).2)),
   Real.sqrt (x ^ 2 + y ^ 2 + z ^ 2) *
     Real.sin (radiansOf (cartesian_to_radec x y z).2))

lemma radiansOf_degreesOf (t : ℝ) : radiansOf (degreesOf t) = t := by
  unfold radiansOf degreesOf
  have hp := Real.pi_ne_zero
  field_simp

lemma radiansOf_add_360 (d : ℝ) :
    radiansOf (d + 360) = radiansOf d + 2 * Real.pi := by
  unfold radiansOf
  ring

lemma cos_radians_wrap (t : ℝ) :
    Real.cos (radiansOf (if degreesOf t < 0 then degreesOf t + 360
      else degreesOf t)) = Real.cos t := by
  split
  · rw [radiansOf_add_360, radiansOf_degreesOf, Real.cos_add_two_pi]
  · rw [radiansOf_degreesOf]

lemma sin_radians_wrap (t : ℝ) :
    Real.sin (radiansOf (if degreesOf t < 0 then degreesOf t + 360
      else degreesOf t)) = Real.sin t := by
  split
  · rw [radiansOf_add_360, radiansOf_degreesOf, Real.sin_add_two_pi]
  · rw [radiansOf_degreesOf]

/-- Claim C9: for every real cartesian vector with positive norm, the
reconstruction of the notebook check cell from the RA/Dec angles
returned by cartesian_to_radec recovers the original vector exactly in
real arithmetic. -/
theorem claim_C9_roundtrip (x y z : ℝ)
    (hR : 0 < Real.sqrt (x ^ 2 + y ^ 2 + z ^ 2)) :
    radecCheck x y z = (x, y, z) := by
  have hsum : 0 < x ^ 2 + y ^ 2 + z ^ 2 := by
    by_contra hc
    push_neg at hc
    have : Real.sqrt (x ^ 2 + y ^ 2 + z ^ 2) = 0 := by
      rcases eq_or_lt_of_le hc with he | hl
      · rw [he, Real.sqrt_zero]
      · exact Real.sqrt_eq_zero_of_nonpos (le_of_lt hl)
    linarith
  have hRne : Real.sqrt (x ^ 2 + y ^ 2 + z ^ 2) ≠ 0 := ne_of_gt hR
  unfold radecCheck cartesian_to_radec
  simp only
  rw [cos_radians_wrap, sin_radians_wrap, radiansOf_degreesOf]
  by_cases hxy : x = 0 ∧ y = 0
  · obtain ⟨hx, hy⟩ := hxy
    subst hx
    subst hy
    have hz : z ≠ 0 := by
      intro hz0
      subst hz0
      norm_num at hsum
    have hs0 : Real.sqrt ((0 : ℝ) ^ 2 + (0 : ℝ) ^ 2) = 0 := by
      norm_num
    rw [hs0]
    have hra : atan2 (0 : ℝ) (0 : ℝ) = 0 := by
      unfold atan2
      norm_num
    rw [hra]
    have hRz : Real.sqrt ((0 : ℝ) ^ 2 + (0 : ℝ) ^ 2 + z ^ 2) = |z| := by
      rw [show (0 : ℝ) ^ 2 + (0 : ℝ) ^ 2 + z ^ 2 = z ^ 2 by ring,
        Real.sqrt_sq_eq_abs]
    rw [hRz]
    rcases lt_or_gt_of_ne hz with hz' | hz'
    · have hdec : atan2 z (0 : ℝ) = -(Real.pi / 2) := by
        unfold atan2
        rw [if_neg (lt_irrefl 0), if_neg (lt_irrefl 0), if_neg (by linarith),
          if_pos hz']
      rw [hdec]
      simp [Real.cos_neg, Real.cos_pi_div_two, Real.sin_neg,
        Real.sin_pi_div_two, abs_of_neg hz']
    · have hdec : atan2 z (0 : ℝ) = Real.pi / 2 := by
        unfold atan2
        rw [if_neg (lt_irrefl 0), if_neg (lt_irrefl 0), if_pos hz']
      rw [hdec]
      simp [Real.cos_pi_div_two, Real.sin_pi_div_two, abs_of_pos hz']
  · have hxy2 : x ≠ 0 ∨ y ≠ 0 := by tauto
    have hs_pos : 0 < Real.sqrt (x ^ 2 + y ^ 2) := by
      apply Real.sqrt_pos.mpr
      rcases hxy2 with hx | hy
      · positivity
      · positivity
    have hsne : Real.sqrt (x ^ 2 + y ^ 2) ≠ 0 := ne_of_gt hs_pos
    have hs_sq : Real.sqrt (x ^ 2 + y ^ 2) ^ 2 = x ^ 2 + y ^ 2 :=
      Real.sq_sqrt (by positivity)
    have hcos_ra := cos_atan2 y x hxy2
    have hsin_ra := sin_atan2 y x hxy2
    have hcos_dec := cos_atan2 z (Real.sqrt (x ^ 2 + y ^ 2)) (Or.inl hsne)
    have hsin_dec := sin_atan2 z (Real.sqrt (x ^ 2 + y ^ 2)) (Or.inl hsne)
    rw [hs_sq] at hcos_dec hsin_dec
    rw [hcos_ra, hsin_ra, hcos_dec, hsin_dec]
    refine Prod.ext ?_ (Prod.ext ?_ ?_)
    · show Real.sqrt (x ^ 2 + y ^ 2 + z ^ 2) *
        (x / Real.sqrt (x ^ 2 + y ^ 2) *
          (Real.sqrt (x ^ 2 + y ^ 2) / Real.sqrt (x ^ 2 + y ^ 2 + z ^ 2))) = x
      field_simp
    · show Real.sqrt (x ^ 2 + y ^ 2 + z ^ 2) *
        (y / Real.sqrt (x ^ 2 + y ^ 2) *
          (Real.sqrt (x ^ 2 + y ^ 2) / Real.sqrt (x ^ 2 + y ^ 2 + z ^ 2))) = y
      field_simp
    · show Real.sqrt (x ^ 2 + y ^ 2 + z ^ 2) *
        (z / Real.sqrt (x ^ 2 + y ^ 2 + z ^ 2)) = z
      field_simp

/-- Claim C9 witness: the round trip at the concrete unit vector along
the x axis. -/
theorem claim_C9_witness :
    0 < Real.sqrt ((1 : ℝ) ^ 2 + (0 : ℝ) ^ 2 + (0 : ℝ) ^ 2) ∧
    radecCheck 1 0 0 = (1, 0, 0) := by
  have h : (0 : ℝ) < Real.sqrt ((1 : ℝ) ^ 2 + (0 : ℝ) ^ 2 + (0 : ℝ) ^ 2) := by
    rw [show (1 : ℝ) ^ 2 + (0 : ℝ) ^ 2 + (0 : ℝ) ^ 2 = 1 by norm_num, Real.sqrt_one]
    norm_num
  exact ⟨h, claim_C9_roundtrip 1 0 0 h⟩

end OrbitStuff
